import Mathlib

/-!
Verification of the myshapes synchronization tool.

The reconciliation engine (`generator/src/commands/sync.ts`), the batch
commands (`generator/src/commands/bulk.ts`), the upload workflow
(`generator/src/commands/upload.ts`), the slug function
(`generator/src/utils/document-utils.ts`) and the pagination / label search
of the Onshape client (`packages/onshape-client/src/index.ts`) are embedded
shallowly.  Persisted records are JSON documents produced by
`JSON.stringify`, so they are modelled by an explicit JSON value type with
ordered object fields; JavaScript-specific behaviour (truthiness, `||`,
optional chaining, spread with in-place override, `JSON.stringify` dropping
`undefined`-valued fields) is modelled explicitly.

Modelling conventions:
* `Date` round-trips are modelled at the level of their ISO serialization:
  a `new Date(s)` for one of this program's own ISO timestamp strings `s`
  re-serializes to `s`; a numeric (or coerced-numeric) input is converted
  by an explicit epoch-milliseconds-to-ISO function; `undefined` and the
  object/array inputs this program can produce give an invalid date, which
  `JSON.stringify` writes as `null`.
* All objects reachable from `JSON.parse` output are distinct references,
  so `Set`-deduplication never merges two non-primitive entries; primitive
  entries compare structurally (SameValueZero).
* A property access that throws a `TypeError` (reading `.name` of a
  nullish label entry, mapping over a non-array) makes the enclosing
  operation return `none`: the program's outer catch turns the throw into
  `process.exit(1)` without persisting anything.
-/

/-- A JavaScript/JSON value.  `undefined` is JavaScript `undefined` (possible as
an object-property value before `JSON.stringify`, never produced by
`JSON.parse`).  Object fields are ordered, as property order is observable
in `JSON.stringify` output. -/
inductive JVal where
  | undefined
  | null
  | bool (b : Bool)
  | num (n : Int)
  | str (s : String)
  | arr (elems : List JVal)
  | obj (fields : List (String × JVal))
  deriving Repr

mutual

/-- Decidable equality for `JVal`, by structural recursion. -/
def JVal.decEq : (a b : JVal) → Decidable (a = b)
  | .undefined, .undefined => isTrue rfl
  | .null, .null => isTrue rfl
  | .bool a, .bool b =>
    if h : a = b then isTrue (by rw [h]) else
      isFalse (by intro hh; injection hh; contradiction)
  | .num a, .num b =>
    if h : a = b then isTrue (by rw [h]) else
      isFalse (by intro hh; injection hh; contradiction)
  | .str a, .str b =>
    if h : a = b then isTrue (by rw [h]) else
      isFalse (by intro hh; injection hh; contradiction)
  | .arr xs, .arr ys =>
    match JVal.decEqArr xs ys with
    | isTrue h => isTrue (by rw [h])
    | isFalse h => isFalse (by intro hh; injection hh; contradiction)
  | .obj fs, .obj gs =>
    match JVal.decEqObj fs gs with
    | isTrue h => isTrue (by rw [h])
    | isFalse h => isFalse (by intro hh; injection hh; contradiction)
  | .undefined, .null => isFalse nofun
  | .undefined, .bool _ => isFalse nofun
  | .undefined, .num _ => isFalse nofun
  | .undefined, .str _ => isFalse nofun
  | .undefined, .arr _ => isFalse nofun
  | .undefined, .obj _ => isFalse nofun
  | .null, .undefined => isFalse nofun
  | .null, .bool _ => isFalse nofun
  | .null, .num _ => isFalse nofun
  | .null, .str _ => isFalse nofun
  | .null, .arr _ => isFalse nofun
  | .null, .obj _ => isFalse nofun
  | .bool _, .undefined => isFalse nofun
  | .bool _, .null => isFalse nofun
  | .bool _, .num _ => isFalse nofun
  | .bool _, .str _ => isFalse nofun
  | .bool _, .arr _ => isFalse nofun
  | .bool _, .obj _ => isFalse nofun
  | .num _, .undefined => isFalse nofun
  | .num _, .null => isFalse nofun
  | .num _, .bool _ => isFalse nofun
  | .num _, .str _ => isFalse nofun
  | .num _, .arr _ => isFalse nofun
  | .num _, .obj _ => isFalse nofun
  | .str _, .undefined => isFalse nofun
  | .str _, .null => isFalse nofun
  | .str _, .bool _ => isFalse nofun
  | .str _, .num _ => isFalse nofun
  | .str _, .arr _ => isFalse nofun
  | .str _, .obj _ => isFalse nofun
  | .arr _, .undefined => isFalse nofun
  | .arr _, .null => isFalse nofun
  | .arr _, .bool _ => isFalse nofun
  | .arr _, .num _ => isFalse nofun
  | .arr _, .str _ => isFalse nofun
  | .arr _, .obj _ => isFalse nofun
  | .obj _, .undefined => isFalse nofun
  | .obj _, .null => isFalse nofun
  | .obj _, .bool _ => isFalse nofun
  | .obj _, .num _ => isFalse nofun
  | .obj _, .str _ => isFalse nofun
  | .obj _, .arr _ => isFalse nofun

def JVal.decEqArr : (xs ys : List JVal) → Decidable (xs = ys)
  | [], [] => isTrue rfl
  | [], _ :: _ => isFalse nofun
  | _ :: _, [] => isFalse nofun
  | x :: xs, y :: ys =>
    match JVal.decEq x y, JVal.decEqArr xs ys with
    | isTrue h1, isTrue h2 => isTrue (by rw [h1, h2])
    | isFalse h1, _ => isFalse (by intro hh; injection hh; contradiction)
    | isTrue _, isFalse h2 => isFalse (by intro hh; injection hh; contradiction)

def JVal.decEqObj : (fs gs : List (String × JVal)) → Decidable (fs = gs)
  | [], [] => isTrue rfl
  | [], _ :: _ => isFalse nofun
  | _ :: _, [] => isFalse nofun
  | (k1, v1) :: fs, (k2, v2) :: gs =>
    match String.decEq k1 k2, JVal.decEq v1 v2, JVal.decEqObj fs gs with
    | isTrue h1, isTrue h2, isTrue h3 => isTrue (by rw [h1, h2, h3])
    | isFalse h1, _, _ =>
      isFalse (by intro hh; injection hh with h4 h5; injection h4; contradiction)
    | isTrue _, isFalse h2, _ =>
      isFalse (by intro hh; injection hh with h4 h5; injection h4; contradiction)
    | isTrue _, isTrue _, isFalse h3 =>
      isFalse (by intro hh; injection hh; contradiction)

end

instance : DecidableEq JVal := JVal.decEq

/-- JavaScript truthiness of a value (`NaN` is not modelled). -/
def JVal.truthy : JVal → Bool
  | .undefined => false
  | .null => false
  | .bool b => b
  | .num n => n != 0
  | .str s => s != ""
  | _ => true

/-- A value is nullish (`null` or `undefined`); member access on a nullish
value throws a `TypeError`. -/
def JVal.nullish : JVal → Bool
  | .undefined => true
  | .null => true
  | _ => false

/-- JavaScript `a || b`. -/
def jsOr (a b : JVal) : JVal :=
  if a.truthy then a else b

/-- Property lookup in an ordered field list (first match; field lists built
by this model have unique keys). -/
def jgetFields (fs : List (String × JVal)) (k : String) : JVal :=
  match fs with
  | [] => .undefined
  | (k1, v) :: rest => if k1 = k then v else jgetFields rest k

/-- JavaScript property access `v[k]` for the property names this program
reads: an object yields the field value (or `undefined`), any non-object
yields `undefined` (the program never reads an index or a built-in method
this way). -/
def JVal.get (v : JVal) (k : String) : JVal :=
  match v with
  | .obj fs => jgetFields fs k
  | _ => .undefined

/-- `Object.entries(v)` for the values this program passes it: fields of an
object, `[]` otherwise (the program only applies it to parsed records or
`{}`). -/
def jsEntries : JVal → List (String × JVal)
  | .obj fs => fs
  | _ => []

/-- Adding a property to an object literal under construction: an existing
key is overwritten in place (its position is kept), a new key is appended.
This is JavaScript object-literal / spread semantics. -/
def objInsert (fs : List (String × JVal)) (k : String) (v : JVal) :
    List (String × JVal) :=
  match fs with
  | [] => [(k, v)]
  | (k1, v1) :: rest =>
    if k1 = k then (k, v) :: rest else (k1, v1) :: objInsert rest k v

/-- Building an object literal (with spreads) from the properties in
evaluation order. -/
def mkObj (l : List (String × JVal)) : List (String × JVal) :=
  l.foldl (fun acc kv => objInsert acc kv.1 kv.2) []

mutual

/-- The value-level effect of `JSON.stringify`: object fields whose value is
`undefined` are dropped, `undefined` array elements become `null`.  Two
values with equal `scrub` results stringify to the same bytes, and scrubbed
values (which contain no `undefined`) stringify injectively, so byte-for-byte
equality of persisted records is equality of their `scrub` images. -/
def JVal.scrub : JVal → JVal
  | .undefined => .undefined
  | .null => .null
  | .bool b => .bool b
  | .num n => .num n
  | .str s => .str s
  | .arr xs => .arr (JVal.scrubArr xs)
  | .obj fs => .obj (JVal.scrubFields fs)

def JVal.scrubArr : List JVal → List JVal
  | [] => []
  | .undefined :: xs => .null :: JVal.scrubArr xs
  | x :: xs => x.scrub :: JVal.scrubArr xs

def JVal.scrubFields : List (String × JVal) → List (String × JVal)
  | [] => []
  | (_, .undefined) :: fs => JVal.scrubFields fs
  | (k, v) :: fs => (k, v.scrub) :: JVal.scrubFields fs

end

mutual

/-- No `undefined` occurs anywhere in the value; true of everything
`JSON.parse` can produce. -/
def JVal.noUndef : JVal → Bool
  | .undefined => false
  | .null => true
  | .bool _ => true
  | .num _ => true
  | .str _ => true
  | .arr xs => JVal.noUndefArr xs
  | .obj fs => JVal.noUndefFields fs

def JVal.noUndefArr : List JVal → Bool
  | [] => true
  | x :: xs => x.noUndef && JVal.noUndefArr xs

def JVal.noUndefFields : List (String × JVal) → Bool
  | [] => true
  | (_, v) :: fs => v.noUndef && JVal.noUndefFields fs

end

/-- SameValueZero equality as it acts on the values this program
deduplicates: primitives compare structurally; objects and arrays are
compared by reference, and every non-primitive this program feeds to a
`Set` is a distinct reference, so non-primitives never compare equal. -/
def sameValueZero : JVal → JVal → Bool
  | .undefined, .undefined => true
  | .null, .null => true
  | .bool a, .bool b => a == b
  | .num a, .num b => a == b
  | .str a, .str b => a == b
  | _, _ => false

/-- JavaScript strict equality `===` on the comparisons this program makes
(always at least one primitive operand, see `sameValueZero`). -/
def strictEq (a b : JVal) : Bool := sameValueZero a b

/-- `[...new Set(xs)]`: keep the first occurrence of each element
(SameValueZero). -/
def dedupSet (seen : List JVal) : List JVal → List JVal
  | [] => []
  | x :: xs =>
    if seen.any (fun y => sameValueZero y x) then dedupSet seen xs
    else x :: dedupSet (seen ++ [x]) xs

/-! ## The reconciliation engine (`generator/src/commands/sync.ts`) -/

/-- Author defaults read from process configuration (`AUTHOR_NAME`,
`AUTHOR_EMAIL`, `AUTHOR_WEBSITE`; `none` models an unset variable). -/
structure AuthorConfig where
  authorName : Option String
  authorEmail : Option String
  authorWebsite : Option String

/-- `env.X || d` : the default applies when the variable is unset or empty. -/
def envOr (o : Option String) (d : String) : String :=
  match o with
  | some s => if s = "" then d else s
  | none => d

/-- The default author object built in `sync.ts` lines 168-172. -/
def defaultAuthor (cfg : AuthorConfig) : JVal :=
  .obj [("name", .str (envOr cfg.authorName "Unknown")),
        ("email", .str (envOr cfg.authorEmail "")),
        ("website", .str (envOr cfg.authorWebsite ""))]

/-- The successful `getDocument` response, restricted to the fields
`sync.ts` reads.  `createdAt` is the ISO serialization of the creation
date; `documentLabels` is `none` when the response lacks the property. -/
structure OnshapeDocument where
  name : String
  description : Option String
  createdAt : String
  documentLabels : Option (List JVal)

/-- One entry of the `getWorkspaces` response (fields read by `sync.ts`). -/
structure Workspace where
  id : String
  name : String
  isMain : Bool
  type : String

/-- One entry of the `getDocumentVersions` response, modelled as an object
(the API's version entries; a non-object entry would make every property
read of `sync.ts` lines 85-90 throw and is outside the model).  `id` is
the remote-assigned identifier string; the remaining fields are raw JSON
values as fetched, `undefined` when absent. -/
structure RawVersion where
  id : String
  name : JVal
  description : JVal
  createdAt : JVal
  created_at : JVal
  microversion : JVal

/-- A natural number zero-padded to at least `width` digits. -/
def padNat (width : Nat) (n : Nat) : String :=
  let s := toString n
  if s.length < width then String.mk (List.replicate (width - s.length) '0') ++ s
  else s

/-- The year field of `Date.prototype.toISOString`: four digits for 0-9999,
otherwise the sign-prefixed six-digit expanded form. -/
def isoYear (y : Int) : String :=
  if 0 ≤ y ∧ y ≤ 9999 then padNat 4 y.toNat
  else if y < 0 then "-" ++ padNat 6 (-y).toNat
  else "+" ++ padNat 6 y.toNat

/-- Proleptic-Gregorian civil date from a day count since 1970-01-01
(the standard era/day-of-era decomposition, with floor division). -/
def civilFromDays (z0 : Int) : Int × Int × Int :=
  let z := z0 + 719468
  let era := z.ediv 146097
  let doe := z.emod 146097
  let yoe := (doe - doe.ediv 1460 + doe.ediv 36524 - doe.ediv 146096).ediv 365
  let y := yoe + era * 400
  let doy := doe - (365 * yoe + yoe.ediv 4 - yoe.ediv 100)
  let mp := (5 * doy + 2).ediv 153
  let d := doy - (153 * mp + 2).ediv 5 + 1
  let m := mp + (if mp < 10 then 3 else -9)
  (if m ≤ 2 then y + 1 else y, m, d)

/-- `new Date(ms).toISOString()` for a finite millisecond timestamp. -/
def epochMillisToISO (ms : Int) : String :=
  let days := ms.ediv 86400000
  let msod := ms.emod 86400000
  let ymd := civilFromDays days
  isoYear ymd.1 ++ "-" ++ padNat 2 ymd.2.1.toNat ++ "-" ++ padNat 2 ymd.2.2.toNat
    ++ "T" ++ padNat 2 (msod.ediv 3600000).toNat
    ++ ":" ++ padNat 2 ((msod.ediv 60000).emod 60).toNat
    ++ ":" ++ padNat 2 ((msod.ediv 1000).emod 60).toNat
    ++ "." ++ padNat 3 (msod.emod 1000).toNat ++ "Z"

/-- `new Date(x)` as later serialized by `JSON.stringify`.  A string input
is this program's own ISO timestamps, which re-serialize to themselves (the
modelling convention above); a number is an epoch-millisecond timestamp
(`null`, `false` and `true` coerce to 0, 0 and 1); `undefined` gives an
invalid date, which stringifies to `null`, as do the object and array
inputs this program can produce (their string coercions do not parse). -/
def jsDate : JVal → JVal
  | .str s => .str s
  | .num n => .str (epochMillisToISO n)
  | .bool b => .str (epochMillisToISO (if b then 1 else 0))
  | .null => .str (epochMillisToISO 0)
  | .undefined => .null
  | .arr _ => .null
  | .obj _ => .null

/-- `sync.ts` lines 84-91: normalization of one fetched version entry. -/
def mapVersion (v : RawVersion) : JVal :=
  .obj [("id", .str v.id),
        ("name", jsOr v.name (.str ("Version " ++ v.id))),
        ("description", jsOr v.description (.str "")),
        ("createdAt", jsDate (jsOr v.createdAt v.created_at)),
        ("microversion", jsOr v.microversion (.str ""))]

/-- `sync.ts` lines 84-92: the `versions` variable — normalize, then drop
entries whose (normalized) name is `"Start"`; `[]` when the fetch threw. -/
def versionsOf (versionsRes : Except Unit (List RawVersion)) : List JVal :=
  match versionsRes with
  | .error _ => []
  | .ok vs =>
    (vs.map mapVersion).filter (fun v => !strictEq (v.get "name") (.str "Start"))

/-- `sync.ts` lines 62-77: the `mainWorkspaceId` variable — the id of the
first workspace named `"Main"` or flagged `isMain`, of type `"workspace"`;
`none` when the fetch threw or no such workspace exists. -/
def mainWorkspaceOf (workspacesRes : Except Unit (List Workspace)) : Option String :=
  match workspacesRes with
  | .error _ => none
  | .ok ws =>
    (ws.find? (fun w => (w.name == "Main" || w.isMain) && w.type == "workspace")).map
      (fun w => w.id)

/-- `sync.ts` lines 101-119: the `thumbnails` variable — the fetched
descriptor list as-is, `[]` when the fetch threw (the 600x340 download is a
side effect on a separate file and does not touch the record). -/
def thumbnailsOf (thumbnailsRes : Except Unit (List JVal)) : List JVal :=
  match thumbnailsRes with
  | .error _ => []
  | .ok ts => ts

/-- `Array.prototype.map` with a callback that may throw: `none` when any
callback throws (the map is abandoned at the first throwing entry; for an
`Option` result the position does not matter). -/
def jsArrayMap (f : JVal → Option JVal) : List JVal → Option (List JVal)
  | [] => some []
  | x :: xs =>
    match f x, jsArrayMap f xs with
    | some y, some ys => some (y :: ys)
    | _, _ => none

/-- `sync.ts` line 139: `apiLabelNames` — names of the fetched document
labels, falsy entries dropped.  `.name` on a nullish entry throws a
`TypeError` (`none`); on any other non-object it is `undefined` and the
`filter(Boolean)` drops it. -/
def apiLabelNames (document : OnshapeDocument) : Option (List JVal) :=
  match document.documentLabels with
  | none => some []
  | some ls =>
    (jsArrayMap (fun l => if l.nullish then none else some (l.get "name")) ls).map
      (fun names => names.filter JVal.truthy)

/-- `sync.ts` line 143: normalization of one prior user label:
`typeof label === 'string' ? label : label.name || label`.  A nullish
entry makes `label.name` throw a `TypeError` (`none`). -/
def normalizeLabel (l : JVal) : Option JVal :=
  match l with
  | .str s => some (.str s)
  | l => if l.nullish then none else some (jsOr (l.get "name") l)

/-- `sync.ts` lines 142-144: `userLabels` — prior `userData.labels`
normalized and falsy entries dropped.  `none` models the merge throwing:
a truthy non-array `userData.labels` (no `.map`), or a nullish entry
(`normalizeLabel` throws). -/
def userLabelsOf (existingData : JVal) : Option (List JVal) :=
  match jsOr ((existingData.get "userData").get "labels") (.arr []) with
  | .arr ls => (jsArrayMap normalizeLabel ls).map (fun xs => xs.filter JVal.truthy)
  | _ => none

/-- `sync.ts` line 147: `allLabels` — API label names first, then user
labels, first occurrence kept. -/
def allLabels (apiNames userLabels : List JVal) : List JVal :=
  dedupSet [] (apiNames ++ userLabels)

/-- Keys recognized as user-owned and therefore not passed through from
`priorRecord.userData` (`sync.ts` line 178). -/
def recognizedUserKeys : List String :=
  ["workspaceId", "elementId", "pdfElementId", "author", "labels", "description",
   "changelog"]

/-- Top-level keys not migrated into `userData` (`sync.ts` line 184). -/
def recognizedRootKeys : List String :=
  ["documentId", "title", "description", "createdAt", "versions", "thumbnails",
   "labels", "workspaceId", "elementId", "changelog", "author", "userData"]

/-- `sync.ts` lines 163-187: the properties of the `userData` object
literal, in evaluation order — the five fixed fields, then the passthrough
spread of unrecognized prior `userData` keys, then the migration spread of
unrecognized prior top-level keys. -/
def userDataProps (cfg : AuthorConfig) (existingData : JVal)
    (userLabels : List JVal) : List (String × JVal) :=
  let ud := existingData.get "userData"
  [("workspaceId", jsOr (ud.get "workspaceId")
      (jsOr (existingData.get "workspaceId") .undefined)),
   ("elementId", jsOr (ud.get "elementId")
      (jsOr (existingData.get "elementId") .undefined)),
   ("pdfElementId", jsOr (ud.get "pdfElementId") .undefined),
   ("author", jsOr (ud.get "author")
      (jsOr (existingData.get "author") (defaultAuthor cfg))),
   ("labels", .arr userLabels)]
    ++ (jsEntries (jsOr ud (.obj []))).filter
        (fun kv => !recognizedUserKeys.contains kv.1)
    ++ (jsEntries existingData).filter
        (fun kv => !recognizedRootKeys.contains kv.1)

/-- The `userData` object built from those properties (spread semantics:
a later occurrence of a key overrides the earlier one in place). -/
def userDataFields (cfg : AuthorConfig) (existingData : JVal)
    (userLabels : List JVal) : List (String × JVal) :=
  mkObj (userDataProps cfg existingData userLabels)

/-- `sync.ts` lines 150-160: the `apiData` object literal. -/
def apiDataFields (docId : String) (document : OnshapeDocument)
    (workspacesRes : Except Unit (List Workspace))
    (versionsRes : Except Unit (List RawVersion))
    (thumbnailsRes : Except Unit (List JVal))
    (labels : List JVal) : List (String × JVal) :=
  [("documentId", .str docId),
   ("title", .str document.name),
   ("description", .str (document.description.getD "")),
   ("onshapeUrl", .str ("https://cad.onshape.com/documents/" ++ docId)),
   ("mainWorkspaceId",
     match mainWorkspaceOf workspacesRes with
     | some i => .str i
     | none => .undefined),
   ("createdAt", jsDate (.str document.createdAt)),
   ("versions", .arr (versionsOf versionsRes)),
   ("thumbnails", .arr (thumbnailsOf thumbnailsRes)),
   ("labels", .arr labels)]

/-- `sync.ts` lines 121-195, the merge region of `syncDocuments`: given the
outcome of the four fetches and the parsed prior record (`.obj []` when no
file existed or it failed to parse), produce the persisted record — the
`scrub` image of `documentData`, which is what `JSON.stringify` writes and
a later run re-parses.  `none` models the merge itself throwing — a prior
record `null`, a truthy non-array `userData.labels`, or a nullish entry of
`documentLabels` or `userData.labels` (`.name` on it throws) — which the
outer catch turns into `process.exit(1)` without persisting anything. -/
def syncDocumentsMerge (cfg : AuthorConfig) (docId : String)
    (document : OnshapeDocument)
    (workspacesRes : Except Unit (List Workspace))
    (versionsRes : Except Unit (List RawVersion))
    (thumbnailsRes : Except Unit (List JVal))
    (existingData : JVal) : Option JVal :=
  if existingData.nullish then none
  else
    match apiLabelNames document, userLabelsOf existingData with
    | some apiNames, some userLabels =>
      let labels := allLabels apiNames userLabels
      let documentData : JVal :=
        .obj (mkObj
          (apiDataFields docId document workspacesRes versionsRes thumbnailsRes labels
            ++ [("userData", .obj (userDataFields cfg existingData userLabels))]))
      some documentData.scrub
    | _, _ => none

/-- `generator/src/utils/document-utils.ts` lines 12-14, first stage:
`toLowerCase`, modelled for ASCII.  JavaScript's `toLowerCase` is
Unicode-aware; a non-ASCII character whose lowercase form is again
non-ASCII (the ordinary case) is stripped by the final stage under either
reading, so the model agrees with the program there.  The rare mappings
that cross into ASCII (e.g. `İ` lowercases to `i` plus a combining mark)
are outside the model. -/
def jsToLower (c : Char) : Char :=
  if 'A' ≤ c ∧ c ≤ 'Z' then Char.ofNat (c.toNat + 32) else c

/-- A character matched by the JavaScript regexp class `\s`: ASCII
whitespace plus the Unicode whitespace set (NBSP, Ogham space, the U+2000
block, line/paragraph separators, narrow/medium spaces, ideographic space,
BOM). -/
def isJsSpace (c : Char) : Bool :=
  c = ' ' ∨ c = '\t' ∨ c = '\n' ∨ c = '\r' ∨ c = '\x0b' ∨ c = '\x0c' ∨
  c = '\u00A0' ∨ c = '\u1680' ∨ ('\u2000' ≤ c ∧ c ≤ '\u200A') ∨
  c = '\u2028' ∨ c = '\u2029' ∨ c = '\u202F' ∨ c = '\u205F' ∨ c = '\u3000' ∨
  c = '\uFEFF'

/-- `replace(/\s+/g, '-')`: each maximal whitespace run becomes one hyphen.
`inRun` records whether the previous character was whitespace. -/
def collapseWs (inRun : Bool) : List Char → List Char
  | [] => []
  | c :: cs =>
    if isJsSpace c then
      if inRun then collapseWs true cs else '-' :: collapseWs true cs
    else c :: collapseWs false cs

/-- A character kept by `replace(/[^a-z0-9-]/g, '')`. -/
def isSlugChar (c : Char) : Bool :=
  ('a' ≤ c ∧ c ≤ 'z') ∨ ('0' ≤ c ∧ c ≤ '9') ∨ c = '-'

/-- `generator/src/utils/document-utils.ts` lines 12-14:
`title.toLowerCase().replace(/\s+/g, '-').replace(/[^a-z0-9-]/g, '')`. -/
def generateFilenameFromTitle (title : String) : String :=
  String.mk (((title.data.map jsToLower) |> collapseWs false).filter isSlugChar)

/-! ## Object-model lemmas -/

/-- The key list of an ordered field list. -/
def objKeys (fs : List (String × JVal)) : List String := fs.map Prod.fst

/-- The value the last writer of key `k` in property list `l` leaves behind
(`d` when `l` never writes `k`). -/
def lastValD (l : List (String × JVal)) (k : String) (d : JVal) : JVal :=
  match l with
  | [] => d
  | (k1, v) :: rest => lastValD rest k (if k1 = k then v else d)

theorem jgetFields_objInsert (fs : List (String × JVal)) (k k' : String) (v : JVal) :
    jgetFields (objInsert fs k v) k' = if k = k' then v else jgetFields fs k' := by
  induction fs with
  | nil => simp [objInsert, jgetFields]
  | cons kv rest ih =>
    obtain ⟨k1, v1⟩ := kv
    by_cases h : k1 = k
    · subst h
      simp only [objInsert, if_pos rfl, jgetFields]
      by_cases h2 : k1 = k' <;> simp [h2]
    · simp only [objInsert, if_neg h, jgetFields]
      by_cases h2 : k1 = k'
      · subst h2
        have hne : ¬ k = k1 := fun hh => h hh.symm
        simp [hne]
      · simp [h2, ih]

theorem jgetFields_foldl_objInsert (l : List (String × JVal))
    (fs : List (String × JVal)) (k : String) :
    jgetFields (l.foldl (fun acc kv => objInsert acc kv.1 kv.2) fs) k
      = lastValD l k (jgetFields fs k) := by
  induction l generalizing fs with
  | nil => simp [lastValD]
  | cons kv rest ih =>
    obtain ⟨k1, v1⟩ := kv
    simp only [List.foldl_cons, lastValD]
    rw [ih, jgetFields_objInsert]

theorem jgetFields_mkObj (l : List (String × JVal)) (k : String) :
    jgetFields (mkObj l) k = lastValD l k .undefined := by
  simpa [mkObj, jgetFields] using jgetFields_foldl_objInsert l [] k

theorem lastValD_append (l1 l2 : List (String × JVal)) (k : String) (d : JVal) :
    lastValD (l1 ++ l2) k d = lastValD l2 k (lastValD l1 k d) := by
  induction l1 generalizing d with
  | nil => simp [lastValD]
  | cons kv rest ih =>
    obtain ⟨k1, v1⟩ := kv
    simp [lastValD, ih]

theorem lastValD_of_not_mem (l : List (String × JVal)) (k : String) (d : JVal)
    (h : k ∉ objKeys l) : lastValD l k d = d := by
  induction l generalizing d with
  | nil => rfl
  | cons kv rest ih =>
    obtain ⟨k1, v1⟩ := kv
    simp only [objKeys, List.map_cons, List.mem_cons] at h
    push_neg at h
    have h1 : ¬ k1 = k := fun hh => h.1 hh.symm
    simp [lastValD, h1, ih _ (by simpa [objKeys] using h.2)]

theorem jgetFields_eq_undef_of_not_mem (fs : List (String × JVal)) (k : String)
    (h : k ∉ objKeys fs) : jgetFields fs k = .undefined := by
  induction fs with
  | nil => rfl
  | cons kv rest ih =>
    obtain ⟨k1, v1⟩ := kv
    simp only [objKeys, List.map_cons, List.mem_cons] at h
    push_neg at h
    have h1 : ¬ k1 = k := fun hh => h.1 hh.symm
    simp [jgetFields, h1, ih (by simpa [objKeys] using h.2)]

theorem mem_of_jgetFields (fs : List (String × JVal)) (k : String) (v : JVal)
    (h : jgetFields fs k = v) (hne : v ≠ .undefined) : (k, v) ∈ fs := by
  induction fs with
  | nil => exact absurd h.symm hne
  | cons kv rest ih =>
    obtain ⟨k1, v1⟩ := kv
    by_cases h1 : k1 = k
    · subst h1
      simp only [jgetFields, if_pos] at h
      subst h
      exact List.mem_cons_self _ _
    · simp only [jgetFields, if_neg h1] at h
      simp [ih h]

theorem lastValD_eq_of_mem_nodup (l : List (String × JVal)) (k : String)
    (v d : JVal) (hm : (k, v) ∈ l) (hnd : (objKeys l).Nodup) :
    lastValD l k d = v := by
  induction l generalizing d with
  | nil => cases hm
  | cons kv rest ih =>
    obtain ⟨k1, v1⟩ := kv
    simp only [objKeys, List.map_cons, List.nodup_cons] at hnd
    rcases List.mem_cons.mp hm with h | h
    · injection h with h1 h2
      subst h1
      subst h2
      have hk2 : k ∉ objKeys rest := by simpa [objKeys] using hnd.1
      simp [lastValD, lastValD_of_not_mem rest k _ hk2]
    · have h1 : ¬ k1 = k := by
        intro hh
        subst hh
        exact hnd.1 (by simpa [objKeys] using List.mem_map_of_mem Prod.fst h)
      simp only [lastValD, if_neg h1]
      exact ih _ h (by simpa [objKeys] using hnd.2)

theorem objKeys_objInsert (fs : List (String × JVal)) (k : String) (v : JVal) :
    objKeys (objInsert fs k v)
      = if k ∈ objKeys fs then objKeys fs else objKeys fs ++ [k] := by
  induction fs with
  | nil => simp [objInsert, objKeys]
  | cons kv rest ih =>
    obtain ⟨k1, v1⟩ := kv
    by_cases h : k1 = k
    · subst h
      simp [objInsert, objKeys]
    · have h1 : ¬ k = k1 := fun hh => h hh.symm
      simp only [objInsert, if_neg h, objKeys, List.map_cons]
      have ih' : List.map Prod.fst (objInsert rest k v)
          = if k ∈ List.map Prod.fst rest then List.map Prod.fst rest
            else List.map Prod.fst rest ++ [k] := by simpa [objKeys] using ih
      rw [ih']
      by_cases h2 : k ∈ List.map Prod.fst rest <;> simp [h2, h1]

theorem nodup_objKeys_objInsert (fs : List (String × JVal)) (k : String) (v : JVal)
    (h : (objKeys fs).Nodup) : (objKeys (objInsert fs k v)).Nodup := by
  rw [objKeys_objInsert]
  by_cases h2 : k ∈ objKeys fs
  · simpa [h2]
  · simpa [h2, List.nodup_append] using h

theorem nodup_objKeys_mkObj (l : List (String × JVal)) :
    (objKeys (mkObj l)).Nodup := by
  have main : ∀ fs : List (String × JVal), (objKeys fs).Nodup →
      (objKeys (l.foldl (fun acc kv => objInsert acc kv.1 kv.2) fs)).Nodup := by
    induction l with
    | nil => intro fs h; simpa using h
    | cons kv rest ih =>
      intro fs h
      exact ih _ (nodup_objKeys_objInsert fs kv.1 kv.2 h)
  simpa [mkObj] using main [] (by simp [objKeys])

theorem objInsert_of_not_mem (fs : List (String × JVal)) (k : String) (v : JVal)
    (h : k ∉ objKeys fs) : objInsert fs k v = fs ++ [(k, v)] := by
  induction fs with
  | nil => rfl
  | cons kv rest ih =>
    obtain ⟨k1, v1⟩ := kv
    simp only [objKeys, List.map_cons, List.mem_cons] at h
    push_neg at h
    have h1 : ¬ k1 = k := fun hh => h.1 hh.symm
    simp [objInsert, h1, ih (by simpa [objKeys] using h.2)]

theorem mkObj_eq_self (l : List (String × JVal)) (h : (objKeys l).Nodup) :
    mkObj l = l := by
  have main : ∀ (l2 fs : List (String × JVal)),
      (objKeys l2).Nodup → (∀ k ∈ objKeys l2, k ∉ objKeys fs) →
      l2.foldl (fun acc kv => objInsert acc kv.1 kv.2) fs = fs ++ l2 := by
    intro l2
    induction l2 with
    | nil => intro fs _ _; simp
    | cons kv rest ih =>
      intro fs hnd hdisj
      obtain ⟨k1, v1⟩ := kv
      simp only [objKeys, List.map_cons, List.nodup_cons] at hnd
      simp only [List.foldl_cons]
      rw [objInsert_of_not_mem fs k1 v1 (hdisj k1 (by simp [objKeys]))]
      have hdisj' : ∀ k ∈ objKeys rest, k ∉ objKeys (fs ++ [(k1, v1)]) := by
        intro k hk hcon
        have hk' : k ∈ objKeys ((k1, v1) :: rest) := by
          simp only [objKeys, List.map_cons, List.mem_cons]
          exact Or.inr (by simpa [objKeys] using hk)
        rcases (by simpa [objKeys] using hcon : k ∈ objKeys fs ∨ k = k1) with hc | hc
        · exact hdisj k hk' hc
        · subst hc
          exact hnd.1 (by simpa [objKeys] using hk)
      rw [ih (fs ++ [(k1, v1)]) (by simpa [objKeys] using hnd.2) hdisj']
      simp
  simpa [mkObj] using main l [] h (by simp [objKeys])

theorem scrubFields_cons (k : String) (v : JVal) (fs : List (String × JVal))
    (h : v ≠ .undefined) :
    JVal.scrubFields ((k, v) :: fs) = (k, v.scrub) :: JVal.scrubFields fs := by
  cases v <;> simp_all [JVal.scrubFields]

theorem jgetFields_scrubFields (fs : List (String × JVal)) (k : String)
    (h : (objKeys fs).Nodup) :
    jgetFields (JVal.scrubFields fs) k = (jgetFields fs k).scrub := by
  induction fs with
  | nil => rfl
  | cons kv rest ih =>
    obtain ⟨k1, v1⟩ := kv
    simp only [objKeys, List.map_cons, List.nodup_cons] at h
    by_cases h1 : k1 = k
    · subst h1
      by_cases hv : v1 = .undefined
      · subst hv
        have h0 : jgetFields rest k1 = .undefined :=
          jgetFields_eq_undef_of_not_mem rest k1 (by simpa [objKeys] using h.1)
        simp [JVal.scrubFields, jgetFields, ih (by simpa [objKeys] using h.2), h0,
          JVal.scrub]
      · rw [scrubFields_cons _ _ _ hv]
        simp [jgetFields]
    · by_cases hv : v1 = .undefined
      · subst hv
        simp [JVal.scrubFields, jgetFields, h1, ih (by simpa [objKeys] using h.2)]
      · rw [scrubFields_cons _ _ _ hv]
        simp [jgetFields, h1, ih (by simpa [objKeys] using h.2)]

/-! ## Record accessors and well-formed prior records -/

/-- Elements of an array value. -/
def JVal.elems : JVal → List JVal
  | .arr xs => xs
  | _ => []

/-- Keys of an object value. -/
def JVal.keyList : JVal → List String
  | .obj fs => objKeys fs
  | _ => []

/-- The `userData.labels` shapes on which the merge does not throw:
an array, or a falsy value (`undefined`, `null`, `false`, `0`, `""`). -/
def labelsShapeOK : JVal → Bool
  | .arr ls => ls.all (fun l => !l.nullish)
  | v => !v.truthy

/-- A well-formed prior record, i.e. the shape of anything this program
itself persists (and, up to irrelevant generality, anything `JSON.parse`
returns for a record file): a top-level object with distinct keys whose
`userData`, if a truthy object, has distinct keys and an array-or-falsy
`labels` with no nullish entries (a nullish entry makes the merge's
`label.name` throw, see `normalizeLabel`).  A truthy non-object,
non-string, non-array `userData` is allowed (property reads on it yield
`undefined`); string and array `userData` values are outside the model
(JavaScript would enumerate their indices). -/
def WFPrior (p : JVal) : Bool :=
  match p with
  | .obj fs =>
    decide (objKeys fs).Nodup &&
      (match jgetFields fs "userData" with
       | .obj gs => decide (objKeys gs).Nodup && labelsShapeOK (jgetFields gs "labels")
       | .str _ => false
       | .arr _ => false
       | _ => true)
  | _ => false

/-- A fetched metadata snapshot on which the label-name map of
`sync.ts` line 139 does not throw: no nullish `documentLabels` entry. -/
def WFDocumentLabels (document : OnshapeDocument) : Bool :=
  match document.documentLabels with
  | none => true
  | some ls => ls.all (fun l => !l.nullish)

theorem WFPrior_not_nullish (p : JVal) (h : WFPrior p = true) :
    p.nullish = false := by
  cases p <;> simp_all [WFPrior, JVal.nullish]

theorem jsArrayMap_isSome (f : JVal → Option JVal) (ls : List JVal)
    (h : ∀ l ∈ ls, ∃ y, f l = some y) : ∃ ys, jsArrayMap f ls = some ys := by
  induction ls with
  | nil => exact ⟨[], rfl⟩
  | cons x xs ih =>
    obtain ⟨y, hy⟩ := h x (List.mem_cons_self _ _)
    obtain ⟨ys, hys⟩ := ih (fun l hl => h l (List.mem_cons_of_mem _ hl))
    exact ⟨y :: ys, by simp [jsArrayMap, hy, hys]⟩

theorem normalizeLabel_isSome (l : JVal) (h : l.nullish = false) :
    ∃ y, normalizeLabel l = some y := by
  cases l <;> simp_all [normalizeLabel, JVal.nullish]

theorem WFDocumentLabels_apiLabelNames_isSome (document : OnshapeDocument)
    (h : WFDocumentLabels document = true) :
    ∃ ns, apiLabelNames document = some ns := by
  unfold WFDocumentLabels at h
  unfold apiLabelNames
  cases hd : document.documentLabels with
  | none => exact ⟨[], rfl⟩
  | some ls =>
    rw [hd] at h
    have hall : ∀ l ∈ ls, ∃ y,
        (fun l => if l.nullish then none else some (l.get "name")) l = some y := by
      intro l hl
      have hn := List.all_eq_true.mp h l hl
      simp only [Bool.not_eq_true'] at hn
      exact ⟨l.get "name", by simp [hn]⟩
    obtain ⟨ys, hys⟩ := jsArrayMap_isSome _ ls hall
    exact ⟨ys.filter JVal.truthy, by simp [hys]⟩

theorem WFPrior_userLabelsOf_isSome (p : JVal) (h : WFPrior p = true) :
    ∃ uls, userLabelsOf p = some uls := by
  cases p with
  | obj fs =>
    simp only [WFPrior, Bool.and_eq_true] at h
    obtain ⟨h1, h2⟩ := h
    have hg : (JVal.obj fs).get "userData" = jgetFields fs "userData" := rfl
    unfold userLabelsOf
    rw [hg]
    cases hud : jgetFields fs "userData" with
    | obj gs =>
      rw [hud] at h2
      simp only [Bool.and_eq_true] at h2
      obtain ⟨h3, h4⟩ := h2
      simp only [JVal.get]
      cases hl : jgetFields gs "labels" with
      | undefined => exact ⟨_, rfl⟩
      | null => exact ⟨_, rfl⟩
      | arr xs =>
        rw [hl] at h4
        simp only [labelsShapeOK] at h4
        have hall : ∀ l ∈ xs, ∃ y, normalizeLabel l = some y := by
          intro l hl2
          have hn := List.all_eq_true.mp h4 l hl2
          simp only [Bool.not_eq_true'] at hn
          exact normalizeLabel_isSome l hn
        obtain ⟨ys, hys⟩ := jsArrayMap_isSome normalizeLabel xs hall
        refine ⟨ys.filter JVal.truthy, ?_⟩
        simp [jsOr, JVal.truthy, hys]
      | bool b =>
        rw [hl] at h4
        cases b
        · exact ⟨_, rfl⟩
        · simp [labelsShapeOK, JVal.truthy] at h4
      | num n =>
        rw [hl] at h4
        by_cases hn : n = 0
        · subst hn
          exact ⟨_, rfl⟩
        · simp [labelsShapeOK, JVal.truthy, hn] at h4
      | str s =>
        rw [hl] at h4
        by_cases hs : s = ""
        · subst hs
          exact ⟨_, rfl⟩
        · simp [labelsShapeOK, JVal.truthy, hs] at h4
      | obj hs =>
        rw [hl] at h4
        simp [labelsShapeOK, JVal.truthy] at h4
    | undefined => exact ⟨_, rfl⟩
    | null => exact ⟨_, rfl⟩
    | bool b => exact ⟨_, rfl⟩
    | num n => exact ⟨_, rfl⟩
    | str s =>
      rw [hud] at h2
      simp at h2
    | arr xs =>
      rw [hud] at h2
      simp at h2
  | undefined => simp [WFPrior] at h
  | null => simp [WFPrior] at h
  | bool b => simp [WFPrior] at h
  | num n => simp [WFPrior] at h
  | str s => simp [WFPrior] at h
  | arr xs => simp [WFPrior] at h

/-- Record lookup through `scrub` on an object built with `mkObj`. -/
theorem get_scrub_obj_mkObj (l : List (String × JVal)) (k : String) :
    (JVal.scrub (.obj (mkObj l))).get k = (lastValD l k .undefined).scrub := by
  have h := jgetFields_scrubFields (mkObj l) k (nodup_objKeys_mkObj l)
  simp only [JVal.scrub, JVal.get]
  rw [h, jgetFields_mkObj]

/-- Unfolding of the merge on a well-formed prior. -/
theorem syncDocumentsMerge_eq (cfg : AuthorConfig) (docId : String)
    (document : OnshapeDocument) (workspacesRes : Except Unit (List Workspace))
    (versionsRes : Except Unit (List RawVersion))
    (thumbnailsRes : Except Unit (List JVal)) (prior : JVal)
    (apiNames uls : List JVal)
    (hapi : apiLabelNames document = some apiNames)
    (huls : userLabelsOf prior = some uls)
    (hnn : prior.nullish = false) :
    syncDocumentsMerge cfg docId document workspacesRes versionsRes thumbnailsRes prior
      = some (JVal.scrub (.obj (mkObj
          (apiDataFields docId document workspacesRes versionsRes thumbnailsRes
              (allLabels apiNames uls)
            ++ [("userData", .obj (userDataFields cfg prior uls))])))) := by
  simp [syncDocumentsMerge, hnn, hapi, huls]

/-! ## C5: partial-failure isolation -/

/-- **C5**: for every document whose core-metadata fetch succeeds (the
`document` argument exists), a thrown error in the versions fetch — or the
workspace or thumbnails fetch — is caught: the corresponding field falls
back to its empty/absent default (`versions = []`, `thumbnails = []`,
`mainWorkspaceId` absent) rather than the prior value (the conclusion holds
for every well-formed prior record), the record still has `title` and
`description` populated from the metadata, and reconciliation does not
raise (the merge returns a record).  The hypotheses bound the no-raise
domain exactly: a malformed prior or a nullish `documentLabels` entry
makes the merge itself throw — `syncDocumentsMerge` returns `none` there —
independently of the three secondary fetches. -/
theorem sync_partial_failure_isolation (cfg : AuthorConfig) (docId : String)
    (document : OnshapeDocument) (workspacesRes : Except Unit (List Workspace))
    (versionsRes : Except Unit (List RawVersion))
    (thumbnailsRes : Except Unit (List JVal)) (prior : JVal)
    (hWF : WFPrior prior = true)
    (hdoc : WFDocumentLabels document = true) :
    ∃ r, syncDocumentsMerge cfg docId document workspacesRes versionsRes
        thumbnailsRes prior = some r
      ∧ r.get "title" = .str document.name
      ∧ r.get "description" = .str (document.description.getD "")
      ∧ (versionsRes = .error () → r.get "versions" = .arr [])
      ∧ (workspacesRes = .error () → r.get "mainWorkspaceId" = .undefined)
      ∧ (thumbnailsRes = .error () → r.get "thumbnails" = .arr []) := by
  obtain ⟨uls, huls⟩ := WFPrior_userLabelsOf_isSome prior hWF
  obtain ⟨apiNames, hapi⟩ := WFDocumentLabels_apiLabelNames_isSome document hdoc
  have hnn := WFPrior_not_nullish prior hWF
  rw [syncDocumentsMerge_eq cfg docId document workspacesRes versionsRes
    thumbnailsRes prior apiNames uls hapi huls hnn]
  refine ⟨_, rfl, ?_, ?_, ?_, ?_, ?_⟩
  · rw [get_scrub_obj_mkObj]
    simp [apiDataFields, lastValD, JVal.scrub]
  · rw [get_scrub_obj_mkObj]
    simp [apiDataFields, lastValD, JVal.scrub]
  · intro hv
    subst hv
    rw [get_scrub_obj_mkObj]
    simp [apiDataFields, lastValD, versionsOf, JVal.scrub, JVal.scrubArr]
  · intro hw
    subst hw
    rw [get_scrub_obj_mkObj]
    simp [apiDataFields, lastValD, mainWorkspaceOf, JVal.scrub]
  · intro ht
    subst ht
    rw [get_scrub_obj_mkObj]
    simp [apiDataFields, lastValD, thumbnailsOf, JVal.scrub, JVal.scrubArr]

/-- Witness for C5 at a concrete input: an empty prior record, all three
secondary fetches failing. -/
theorem sync_partial_failure_isolation_witness :
    WFPrior (JVal.obj []) = true ∧
    WFDocumentLabels ⟨"Widget", some "a part", "2020-01-01T00:00:00.000Z", none⟩
        = true ∧
      ∃ r, syncDocumentsMerge ⟨none, none, none⟩ "d1"
          ⟨"Widget", some "a part", "2020-01-01T00:00:00.000Z", none⟩
          (.error ()) (.error ()) (.error ()) (JVal.obj []) = some r
        ∧ r.get "title" = .str "Widget"
        ∧ r.get "description" = .str (some "a part" |>.getD "")
        ∧ (Except.error () = (.error () : Except Unit (List RawVersion)) →
            r.get "versions" = .arr [])
        ∧ (Except.error () = (.error () : Except Unit (List Workspace)) →
            r.get "mainWorkspaceId" = .undefined)
        ∧ (Except.error () = (.error () : Except Unit (List JVal)) →
            r.get "thumbnails" = .arr []) :=
  ⟨by decide, by decide,
    sync_partial_failure_isolation ⟨none, none, none⟩ "d1"
      ⟨"Widget", some "a part", "2020-01-01T00:00:00.000Z", none⟩
      (.error ()) (.error ()) (.error ()) (JVal.obj []) (by decide) (by decide)⟩

/-! ## C6: Start-version exclusion -/

theorem jsOr_ne_undefined (a b : JVal) (h : b ≠ .undefined) : jsOr a b ≠ .undefined := by
  unfold jsOr
  split
  · rename_i ht
    intro hh
    subst hh
    simp [JVal.truthy] at ht
  · exact h

theorem jsDate_ne_undefined (x : JVal) : jsDate x ≠ .undefined := by
  cases x <;> simp [jsDate]

theorem scrubArr_eq_map (l : List JVal) (h : ∀ x ∈ l, x ≠ .undefined) :
    JVal.scrubArr l = l.map JVal.scrub := by
  induction l with
  | nil => rfl
  | cons x xs ih =>
    have hx : x ≠ .undefined := h x (List.mem_cons_self _ _)
    have hxs := ih (fun y hy => h y (List.mem_cons_of_mem _ hy))
    cases x <;> simp_all [JVal.scrubArr]

theorem objKeys_scrubFields_of_ne (fs : List (String × JVal))
    (h : ∀ kv ∈ fs, kv.2 ≠ .undefined) :
    objKeys (JVal.scrubFields fs) = objKeys fs := by
  induction fs with
  | nil => rfl
  | cons kv rest ih =>
    obtain ⟨k1, v1⟩ := kv
    have hv : v1 ≠ .undefined := h (k1, v1) (List.mem_cons_self _ _)
    rw [scrubFields_cons _ _ _ hv]
    have ih2 := ih (fun y hy => h y (List.mem_cons_of_mem _ hy))
    simp only [objKeys, List.map_cons] at *
    simp [ih2]

theorem strictEq_str_false (x : JVal) (t : String) (h : strictEq x (.str t) = false) :
    x ≠ .str t := by
  cases x <;> simp_all [strictEq, sameValueZero]

theorem scrub_eq_str (x : JVal) (s : String) (h : JVal.scrub x = .str s) :
    x = .str s := by
  cases x <;> simp_all [JVal.scrub]

/-- **C6**: for every freshly fetched version list, every entry whose
(normalized) name equals the sentinel `"Start"` is absent from the persisted
`versions` list, and every persisted entry is normalized to the shape
`{id, name, description, createdAt, microversion}`.  The persisted list is
exactly the normalized list with the `"Start"` entries filtered out. -/
theorem sync_versions_exclude_start (cfg : AuthorConfig) (docId : String)
    (document : OnshapeDocument) (workspacesRes : Except Unit (List Workspace))
    (thumbnailsRes : Except Unit (List JVal)) (prior : JVal)
    (vs : List RawVersion) (hWF : WFPrior prior = true)
    (hdoc : WFDocumentLabels document = true) :
    ∃ r, syncDocumentsMerge cfg docId document workspacesRes (.ok vs)
        thumbnailsRes prior = some r
      ∧ r.get "versions"
          = .arr (((vs.map mapVersion).filter
              (fun v => !strictEq (v.get "name") (.str "Start"))).map JVal.scrub)
      ∧ ∀ w ∈ (r.get "versions").elems,
          w.get "name" ≠ .str "Start"
          ∧ w.keyList = ["id", "name", "description", "createdAt", "microversion"] := by
  obtain ⟨uls, huls⟩ := WFPrior_userLabelsOf_isSome prior hWF
  obtain ⟨apiNames, hapi⟩ := WFDocumentLabels_apiLabelNames_isSome document hdoc
  have hnn := WFPrior_not_nullish prior hWF
  rw [syncDocumentsMerge_eq cfg docId document workspacesRes (.ok vs)
    thumbnailsRes prior apiNames uls hapi huls hnn]
  have hfilter : ∀ x ∈ (vs.map mapVersion).filter
      (fun v => !strictEq (v.get "name") (.str "Start")), x ≠ .undefined := by
    intro x hx
    obtain ⟨hx1, _⟩ := List.mem_filter.mp hx
    obtain ⟨rv, _, hrv⟩ := List.mem_map.mp hx1
    subst hrv
    simp [mapVersion]
  have hv : (JVal.scrub (.obj (mkObj
      (apiDataFields docId document workspacesRes (.ok vs) thumbnailsRes
          (allLabels apiNames uls)
        ++ [("userData", .obj (userDataFields cfg prior uls))])))).get "versions"
      = .arr (((vs.map mapVersion).filter
          (fun v => !strictEq (v.get "name") (.str "Start"))).map JVal.scrub) := by
    rw [get_scrub_obj_mkObj]
    simp only [apiDataFields, List.cons_append, List.nil_append]
    simp [lastValD, versionsOf, JVal.scrub, scrubArr_eq_map _ hfilter]
  refine ⟨_, rfl, hv, ?_⟩
  rw [hv]
  intro w hw
  simp only [JVal.elems] at hw
  obtain ⟨x, hx, hxw⟩ := List.mem_map.mp hw
  obtain ⟨hx1, hx2⟩ := List.mem_filter.mp hx
  obtain ⟨rv, _, hrv⟩ := List.mem_map.mp hx1
  subst hrv
  subst hxw
  have hnd : (objKeys
      [("id", JVal.str rv.id),
       ("name", jsOr rv.name (.str ("Version " ++ rv.id))),
       ("description", jsOr rv.description (.str "")),
       ("createdAt", jsDate (jsOr rv.createdAt rv.created_at)),
       ("microversion", jsOr rv.microversion (.str ""))]).Nodup := by
    simp [objKeys]
  have hne : ∀ kv ∈
      [("id", JVal.str rv.id),
       ("name", jsOr rv.name (.str ("Version " ++ rv.id))),
       ("description", jsOr rv.description (.str "")),
       ("createdAt", jsDate (jsOr rv.createdAt rv.created_at)),
       ("microversion", jsOr rv.microversion (.str ""))], kv.2 ≠ JVal.undefined := by
    intro kv hkv
    simp only [List.mem_cons, List.not_mem_nil, or_false] at hkv
    rcases hkv with h | h | h | h | h <;> subst h
    · simp
    · exact jsOr_ne_undefined _ _ (by simp)
    · exact jsOr_ne_undefined _ _ (by simp)
    · exact jsDate_ne_undefined _
    · exact jsOr_ne_undefined _ _ (by simp)
  constructor
  · intro hcon
    have hname : (JVal.scrub (mapVersion rv)).get "name"
        = (jsOr rv.name (.str ("Version " ++ rv.id))).scrub := by
      simp only [mapVersion, JVal.scrub, JVal.get]
      rw [jgetFields_scrubFields _ _ hnd]
      simp [jgetFields]
    rw [hname] at hcon
    have := scrub_eq_str _ _ hcon
    have hne2 := strictEq_str_false ((mapVersion rv).get "name") "Start"
      (by simpa using hx2)
    apply hne2
    simpa [mapVersion, JVal.get, jgetFields] using this
  · simp only [mapVersion, JVal.scrub, JVal.keyList]
    rw [objKeys_scrubFields_of_ne _ hne]
    simp [objKeys]

/-- Witness for C6 at a concrete input: a `"Start"` version and a `"v1"`
version; only `"v1"` survives, normalized. -/
theorem sync_versions_exclude_start_witness :
    WFPrior (JVal.obj []) = true ∧
    WFDocumentLabels ⟨"Widget", none, "2020-01-01T00:00:00.000Z", none⟩ = true ∧
      ∃ r, syncDocumentsMerge ⟨none, none, none⟩ "d1"
          ⟨"Widget", none, "2020-01-01T00:00:00.000Z", none⟩ (.error ())
          (.ok [⟨"i1", .str "Start", .str "", .str "2020-01-02", .undefined, .str "m1"⟩,
                ⟨"i2", .str "v1", .str "d2", .str "2020-01-03", .undefined, .str "m2"⟩])
          (.error ()) (JVal.obj []) = some r
        ∧ r.get "versions"
            = .arr ((([⟨"i1", .str "Start", .str "", .str "2020-01-02", .undefined, .str "m1"⟩,
                ⟨"i2", .str "v1", .str "d2", .str "2020-01-03", .undefined, .str "m2"⟩].map
                  mapVersion).filter
                (fun v => !strictEq (v.get "name") (.str "Start"))).map JVal.scrub)
        ∧ ∀ w ∈ (r.get "versions").elems,
            w.get "name" ≠ .str "Start"
            ∧ w.keyList = ["id", "name", "description", "createdAt", "microversion"] :=
  ⟨by decide, by decide,
    sync_versions_exclude_start ⟨none, none, none⟩ "d1"
      ⟨"Widget", none, "2020-01-01T00:00:00.000Z", none⟩ (.error ()) (.error ())
      (JVal.obj [])
      [⟨"i1", .str "Start", .str "", .str "2020-01-02", .undefined, .str "m1"⟩,
       ⟨"i2", .str "v1", .str "d2", .str "2020-01-03", .undefined, .str "m2"⟩]
      (by decide) (by decide)⟩

/-! ## C4: label union -/

/-- Spec-side formula (§3, §4.1 step 2): the deduplicated union of the
remote label names and the prior user label names, insertion order of first
occurrence, remote labels first. -/
def dedupNames (seen : List String) : List String → List String
  | [] => []
  | x :: xs =>
    if x ∈ seen then dedupNames seen xs
    else x :: dedupNames (seen ++ [x]) xs

/-- Spec-side formula for the persisted `labels` of a reconciliation. -/
def specLabelUnion (remoteNames userNames : List String) : List String :=
  dedupNames [] (remoteNames ++ userNames)

theorem dedupSet_map_str (seen xs : List String) :
    dedupSet (seen.map .str) (xs.map .str) = (dedupNames seen xs).map .str := by
  induction xs generalizing seen with
  | nil => rfl
  | cons x rest ih =>
    simp only [List.map_cons, dedupSet, dedupNames]
    have hany : (seen.map JVal.str).any (fun y => sameValueZero y (.str x))
        = decide (x ∈ seen) := by
      induction seen with
      | nil => rfl
      | cons s ss ihs =>
        simp only [List.map_cons, List.any_cons]
        rw [ihs, show sameValueZero (JVal.str s) (JVal.str x) = (s == x) from rfl]
        by_cases hsx : s = x
        · simp [hsx]
        · simp [hsx, Ne.symm hsx]
    rw [hany]
    by_cases hc : x ∈ seen
    · simp [hc, ih]
    · have hstep := ih (seen ++ [x])
      simp only [List.map_append, List.map_cons, List.map_nil] at hstep
      simp [hc, hstep]

theorem scrubArr_map_str (l : List String) :
    JVal.scrubArr (l.map .str) = l.map .str := by
  induction l with
  | nil => rfl
  | cons x rest ih => simp [JVal.scrubArr, JVal.scrub, ih]

theorem lastValD_filter_not_contains (l : List (String × JVal)) (ex : List String)
    (k : String) (hk : ex.contains k = true) (d : JVal) :
    lastValD (l.filter (fun kv => !ex.contains kv.1)) k d = d := by
  apply lastValD_of_not_mem
  intro hmem
  simp only [objKeys, List.mem_map] at hmem
  obtain ⟨kv, hkv, hfst⟩ := hmem
  obtain ⟨_, hp⟩ := List.mem_filter.mp hkv
  rw [hfst, hk] at hp
  simp at hp

/-- The `userData` field of the produced record is the scrubbed `userData`
object. -/
theorem get_userData_syncMerge (cfg : AuthorConfig) (docId : String)
    (document : OnshapeDocument) (workspacesRes : Except Unit (List Workspace))
    (versionsRes : Except Unit (List RawVersion))
    (thumbnailsRes : Except Unit (List JVal)) (prior : JVal)
    (labels uls : List JVal) :
    (JVal.scrub (.obj (mkObj
        (apiDataFields docId document workspacesRes versionsRes thumbnailsRes
            labels
          ++ [("userData", .obj (userDataFields cfg prior uls))])))).get "userData"
      = .obj (JVal.scrubFields (userDataFields cfg prior uls)) := by
  rw [get_scrub_obj_mkObj]
  simp [apiDataFields, lastValD, JVal.scrub]

/-- Lookup in the scrubbed `userData` object is the scrubbed last-writer
value of the evaluated property list. -/
theorem get_userDataField (cfg : AuthorConfig) (prior : JVal) (uls : List JVal)
    (k : String) :
    (JVal.obj (JVal.scrubFields (userDataFields cfg prior uls))).get k
      = (lastValD (userDataProps cfg prior uls) k .undefined).scrub := by
  simp only [JVal.get, userDataFields]
  rw [jgetFields_scrubFields _ _ (nodup_objKeys_mkObj _), jgetFields_mkObj]

/-- **C4**: for every reconciliation whose remote snapshot carries the label
names `remoteNames` and whose prior record carries the (normalized) user
label names `userNames`, the persisted `labels` list equals the
deduplicated union — remote labels first, then user labels not already
present, first occurrence kept — and the reconciled `userData.labels`
equals exactly the prior user labels. -/
theorem sync_label_union (cfg : AuthorConfig) (docId : String)
    (document : OnshapeDocument) (workspacesRes : Except Unit (List Workspace))
    (versionsRes : Except Unit (List RawVersion))
    (thumbnailsRes : Except Unit (List JVal)) (prior : JVal)
    (hWF : WFPrior prior = true) (remoteNames userNames : List String)
    (hapi : apiLabelNames document = some (remoteNames.map .str))
    (huser : userLabelsOf prior = some (userNames.map .str)) :
    ∃ r, syncDocumentsMerge cfg docId document workspacesRes versionsRes
        thumbnailsRes prior = some r
      ∧ r.get "labels" = .arr ((specLabelUnion remoteNames userNames).map .str)
      ∧ (r.get "userData").get "labels" = .arr (userNames.map .str) := by
  have hnn := WFPrior_not_nullish prior hWF
  rw [syncDocumentsMerge_eq cfg docId document workspacesRes versionsRes
    thumbnailsRes prior (remoteNames.map .str) (userNames.map .str) hapi huser hnn]
  refine ⟨_, rfl, ?_, ?_⟩
  · rw [get_scrub_obj_mkObj]
    have hall : allLabels (remoteNames.map .str) (userNames.map .str)
        = (specLabelUnion remoteNames userNames).map .str := by
      unfold allLabels specLabelUnion
      rw [← List.map_append]
      simpa using dedupSet_map_str [] (remoteNames ++ userNames)
    simp [apiDataFields, lastValD, JVal.scrub, hall, scrubArr_map_str]
  · rw [get_userData_syncMerge, get_userDataField]
    simp only [userDataProps]
    rw [lastValD_append, lastValD_append]
    rw [lastValD_filter_not_contains _ _ _ (by decide),
      lastValD_filter_not_contains _ _ _ (by decide)]
    simp [lastValD, JVal.scrub, scrubArr_map_str]

/-- Witness for C4 at the spec's own example: remote labels
`["meshtastic"]`, prior user labels `["favorite"]` — persisted labels
`["meshtastic", "favorite"]`, `userData.labels = ["favorite"]`. -/
theorem sync_label_union_witness :
    WFPrior (JVal.obj [("userData", .obj [("labels", .arr [.str "favorite"])])]) = true ∧
    apiLabelNames ⟨"Widget", none, "2020-01-01T00:00:00.000Z",
        some [.obj [("name", .str "meshtastic")]]⟩ = some [JVal.str "meshtastic"] ∧
    userLabelsOf (JVal.obj [("userData", .obj [("labels", .arr [.str "favorite"])])])
        = some [JVal.str "favorite"] ∧
      ∃ r, syncDocumentsMerge ⟨none, none, none⟩ "d1"
          ⟨"Widget", none, "2020-01-01T00:00:00.000Z",
            some [.obj [("name", .str "meshtastic")]]⟩
          (.error ()) (.error ()) (.error ())
          (JVal.obj [("userData", .obj [("labels", .arr [.str "favorite"])])]) = some r
        ∧ r.get "labels" = .arr ((specLabelUnion ["meshtastic"] ["favorite"]).map .str)
        ∧ (r.get "userData").get "labels" = .arr ([ "favorite" ].map JVal.str) :=
  ⟨by decide, by decide, by decide,
    sync_label_union ⟨none, none, none⟩ "d1"
      ⟨"Widget", none, "2020-01-01T00:00:00.000Z",
        some [.obj [("name", .str "meshtastic")]]⟩
      (.error ()) (.error ()) (.error ())
      (JVal.obj [("userData", .obj [("labels", .arr [.str "favorite"])])])
      (by decide) ["meshtastic"] ["favorite"] (by decide) (by decide)⟩

/-! ## C3: unknown-field passthrough -/

/-- **C3 counterexample**: the recognized set actually used by the code is
larger than `{workspaceId, elementId, pdfElementId, author, labels}` — it
also filters out `description` and `changelog` — and a same-named
unrecognized top-level key overrides the passed-through `userData` value.
At this concrete prior, `userData.description = "x"` is dropped, and
`userData.customNote = "x"` emerges as `"y"` (the root-level value). -/
theorem sync_userData_passthrough_counterexample :
    ((syncDocumentsMerge ⟨none, none, none⟩ "d1"
        ⟨"Widget", none, "2020-01-01T00:00:00.000Z", none⟩ (.error ()) (.error ())
        (.error ())
        (JVal.obj [("customNote", .str "y"),
          ("userData", .obj [("description", .str "x"), ("customNote", .str "x")])])).map
      (fun r => ((r.get "userData").get "description",
        (r.get "userData").get "customNote")))
      = some (.undefined, .str "y")
    ∧ "description" ∉ ["workspaceId", "elementId", "pdfElementId", "author", "labels"]
    ∧ "customNote" ∉ ["workspaceId", "elementId", "pdfElementId", "author", "labels"] := by
  refine ⟨by decide, by decide, by decide⟩

/-- **C3 (amended)**: for every well-formed prior record and every key of
its `userData` outside the recognized set
`{workspaceId, elementId, pdfElementId, author, labels, description,
changelog}` that does not also occur as an unrecognized top-level key of
the prior record, the reconciled `userData` contains that key with its
value unchanged (`v.scrub = v` states that the value is plain parsed JSON,
which contains no `undefined`; `WFDocumentLabels` excludes the snapshots
on which the merge itself throws before producing a record). -/
theorem sync_userData_passthrough_amended (cfg : AuthorConfig) (docId : String)
    (document : OnshapeDocument) (workspacesRes : Except Unit (List Workspace))
    (versionsRes : Except Unit (List RawVersion))
    (thumbnailsRes : Except Unit (List JVal)) (prior : JVal)
    (hWF : WFPrior prior = true)
    (hdoc : WFDocumentLabels document = true) (k : String) (v : JVal)
    (hk : k ∉ recognizedUserKeys)
    (hroot : k ∈ objKeys (jsEntries prior) → k ∈ recognizedRootKeys)
    (hv : (prior.get "userData").get k = v)
    (hne : v ≠ .undefined) (hscrub : v.scrub = v) :
    ∃ r, syncDocumentsMerge cfg docId document workspacesRes versionsRes
        thumbnailsRes prior = some r
      ∧ (r.get "userData").get k = v := by
  obtain ⟨uls, huls⟩ := WFPrior_userLabelsOf_isSome prior hWF
  obtain ⟨apiNames, hapi⟩ := WFDocumentLabels_apiLabelNames_isSome document hdoc
  have hnn := WFPrior_not_nullish prior hWF
  rw [syncDocumentsMerge_eq cfg docId document workspacesRes versionsRes
    thumbnailsRes prior apiNames uls hapi huls hnn]
  refine ⟨_, rfl, ?_⟩
  rw [get_userData_syncMerge, get_userDataField]
  cases prior with
  | obj fs =>
    have hget : JVal.get (JVal.obj fs) "userData" = jgetFields fs "userData" := rfl
    obtain ⟨gs, hud⟩ : ∃ gs, jgetFields fs "userData" = .obj gs := by
      cases hud2 : jgetFields fs "userData" with
      | obj gs => exact ⟨gs, rfl⟩
      | undefined =>
        rw [hget, hud2] at hv
        simp only [JVal.get] at hv
        exact absurd hv.symm hne
      | null =>
        rw [hget, hud2] at hv
        simp only [JVal.get] at hv
        exact absurd hv.symm hne
      | bool b =>
        rw [hget, hud2] at hv
        simp only [JVal.get] at hv
        exact absurd hv.symm hne
      | num n =>
        rw [hget, hud2] at hv
        simp only [JVal.get] at hv
        exact absurd hv.symm hne
      | str s =>
        rw [hget, hud2] at hv
        simp only [JVal.get] at hv
        exact absurd hv.symm hne
      | arr xs =>
        rw [hget, hud2] at hv
        simp only [JVal.get] at hv
        exact absurd hv.symm hne
    rw [hget, hud] at hv
    simp only [JVal.get] at hv
    simp only [WFPrior] at hWF
    rw [hud] at hWF
    simp only [Bool.and_eq_true, decide_eq_true_eq] at hWF
    obtain ⟨hndfs, hndgs, _⟩ := hWF
    have hrootskip : ∀ d,
        lastValD (fs.filter (fun kv => !recognizedRootKeys.contains kv.1)) k d = d := by
      intro d
      apply lastValD_of_not_mem
      intro hmem2
      simp only [objKeys, List.mem_map] at hmem2
      obtain ⟨kv, hkv, hfst⟩ := hmem2
      obtain ⟨hin, hp⟩ := List.mem_filter.mp hkv
      have hkr : k ∈ recognizedRootKeys := by
        apply hroot
        show k ∈ List.map Prod.fst (jsEntries (JVal.obj fs))
        simp only [jsEntries]
        rw [← hfst]
        exact List.mem_map_of_mem Prod.fst hin
      rw [hfst] at hp
      simp at hp
      exact hp hkr
    have hmem : (k, v) ∈ gs.filter (fun kv => !recognizedUserKeys.contains kv.1) :=
      List.mem_filter.mpr ⟨mem_of_jgetFields gs k v hv hne, by simp [hk]⟩
    have hndpass : (objKeys
        (gs.filter (fun kv => !recognizedUserKeys.contains kv.1))).Nodup :=
      ((List.filter_sublist gs).map Prod.fst).nodup hndgs
    simp only [userDataProps, hget, hud, jsOr, JVal.truthy, jsEntries, if_true]
    rw [lastValD_append, lastValD_append, hrootskip]
    rw [lastValD_eq_of_mem_nodup _ _ _ _ hmem hndpass]
    exact hscrub
  | undefined => simp [WFPrior] at hWF
  | null => simp [WFPrior] at hWF
  | bool b => simp [WFPrior] at hWF
  | num n => simp [WFPrior] at hWF
  | str s => simp [WFPrior] at hWF
  | arr xs => simp [WFPrior] at hWF

/-- Witness for the amended C3: `userData.customNote = "x"` with no
root-level `customNote` survives reconciliation unchanged. -/
theorem sync_userData_passthrough_amended_witness :
    WFPrior (JVal.obj [("userData", .obj [("customNote", .str "x")])]) = true ∧
    WFDocumentLabels ⟨"Widget", none, "2020-01-01T00:00:00.000Z", none⟩ = true ∧
    "customNote" ∉ recognizedUserKeys ∧
      ∃ r, syncDocumentsMerge ⟨none, none, none⟩ "d1"
          ⟨"Widget", none, "2020-01-01T00:00:00.000Z", none⟩ (.error ()) (.error ())
          (.error ()) (JVal.obj [("userData", .obj [("customNote", .str "x")])]) = some r
        ∧ (r.get "userData").get "customNote" = .str "x" :=
  ⟨by decide, by decide, by decide,
    sync_userData_passthrough_amended ⟨none, none, none⟩ "d1"
      ⟨"Widget", none, "2020-01-01T00:00:00.000Z", none⟩ (.error ()) (.error ())
      (.error ()) (JVal.obj [("userData", .obj [("customNote", .str "x")])])
      (by decide) (by decide) "customNote" (.str "x") (by decide) (by decide)
      (by decide) (by decide) (by decide)⟩

/-! ## C7: pdfElementId ownership -/

/-- The remote action the upload workflow takes (`upload.ts` lines 78-104):
update the existing PDF element when the record's `userData.pdfElementId`
is truthy, otherwise create a new element. -/
inductive UploadAction where
  | update (elementId : JVal)
  | create
  deriving DecidableEq, Repr

/-- `upload.ts` lines 107-116: store the freshly created element id —
`documentData.userData = documentData.userData || {}` followed by
`documentData.userData.pdfElementId = result.id` and a rewrite of the
record file.  A truthy non-object `userData` makes the property assignment
throw (strict mode); the inner catch then leaves the record unwritten. -/
def uploadStoreElementId (documentData resultId : JVal) : JVal :=
  match documentData with
  | .obj fs =>
    match jsOr (jgetFields fs "userData") (.obj []) with
    | .obj gs =>
      .obj (objInsert fs "userData" (.obj (objInsert gs "pdfElementId" resultId)))
    | _ => .obj fs
  | other => other

/-- `upload.ts` lines 74-117: the decision between the update variant
(keyed by the existing element id) and creating a new element, plus the
stored record after the operation (`resultId` is the created element's id;
the write-back happens only on the create path when it is truthy). -/
def uploadPDFModel (documentData resultId : JVal) : UploadAction × JVal :=
  let existingElementId := (documentData.get "userData").get "pdfElementId"
  if existingElementId.truthy then
    (.update existingElementId, documentData)
  else
    (.create,
     if resultId.truthy then uploadStoreElementId documentData resultId
     else documentData)

/-- **C7 counterexample**: sync can assign `userData.pdfElementId` a value
other than the prior `userData.pdfElementId`.  A stray top-level
`pdfElementId` (not in the migration's exclusion list) is migrated into
`userData` and overrides the copied value, and a present-but-empty
`userData.pdfElementId` is dropped (`|| undefined`) instead of copied. -/
theorem sync_pdfElementId_counterexample :
    ((syncDocumentsMerge ⟨none, none, none⟩ "d1"
        ⟨"Widget", none, "2020-01-01T00:00:00.000Z", none⟩ (.error ()) (.error ())
        (.error ())
        (JVal.obj [("pdfElementId", .str "ROOT"),
          ("userData", .obj [("pdfElementId", .str "UD")])])).map
      (fun r => (r.get "userData").get "pdfElementId")) = some (.str "ROOT")
    ∧ (JVal.str "ROOT") ≠ .str "UD"
    ∧ ((syncDocumentsMerge ⟨none, none, none⟩ "d1"
        ⟨"Widget", none, "2020-01-01T00:00:00.000Z", none⟩ (.error ()) (.error ())
        (.error ())
        (JVal.obj [("userData", .obj [("pdfElementId", .str "")])])).map
      (fun r => (r.get "userData").get "pdfElementId")) = some .undefined
    ∧ (JVal.str "") ≠ .undefined := by
  refine ⟨by decide, by decide, by decide, by decide⟩

/-- **C7 (amended)**: provided the prior record has no stray top-level
`pdfElementId` key, sync copies a truthy prior `userData.pdfElementId`
unchanged and leaves the field absent otherwise (a falsy value, e.g. the
empty string, is dropped); it never invents a new value.  The upload
workflow is the only writer: with a truthy existing id it invokes the
update variant keyed by exactly that id and leaves the record unchanged;
otherwise it creates a new element and writes the created id back into
`userData.pdfElementId`.  (`WFPrior`/`WFDocumentLabels` exclude the inputs
on which the merge itself throws before producing a record.) -/
theorem sync_upload_pdfElementId_amended (cfg : AuthorConfig) (docId : String)
    (document : OnshapeDocument) (workspacesRes : Except Unit (List Workspace))
    (versionsRes : Except Unit (List RawVersion))
    (thumbnailsRes : Except Unit (List JVal)) (prior : JVal)
    (hWF : WFPrior prior = true)
    (hdoc : WFDocumentLabels document = true)
    (hrootpdf : "pdfElementId" ∉ objKeys (jsEntries prior))
    (hscrub : ((prior.get "userData").get "pdfElementId").scrub
        = (prior.get "userData").get "pdfElementId") :
    (∃ r, syncDocumentsMerge cfg docId document workspacesRes versionsRes
        thumbnailsRes prior = some r
      ∧ (r.get "userData").get "pdfElementId"
          = (if ((prior.get "userData").get "pdfElementId").truthy
             then (prior.get "userData").get "pdfElementId" else .undefined))
    ∧ (∀ documentData resultId : JVal,
        (((documentData.get "userData").get "pdfElementId").truthy = true →
          uploadPDFModel documentData resultId
            = (.update ((documentData.get "userData").get "pdfElementId"),
               documentData))
        ∧ ((uploadPDFModel documentData resultId).1 = .create ↔
            ((documentData.get "userData").get "pdfElementId").truthy = false)
        ∧ (∀ fs gs, documentData = .obj fs →
            jsOr (jgetFields fs "userData") (.obj []) = .obj gs →
            ((documentData.get "userData").get "pdfElementId").truthy = false →
            resultId.truthy = true →
            (((uploadPDFModel documentData resultId).2).get "userData").get
                "pdfElementId" = resultId)) := by
  constructor
  · obtain ⟨uls, huls⟩ := WFPrior_userLabelsOf_isSome prior hWF
    obtain ⟨apiNames, hapi⟩ := WFDocumentLabels_apiLabelNames_isSome document hdoc
    have hnn := WFPrior_not_nullish prior hWF
    rw [syncDocumentsMerge_eq cfg docId document workspacesRes versionsRes
      thumbnailsRes prior apiNames uls hapi huls hnn]
    refine ⟨_, rfl, ?_⟩
    rw [get_userData_syncMerge, get_userDataField]
    have hrootskip : ∀ d,
        lastValD ((jsEntries prior).filter
          (fun kv => !recognizedRootKeys.contains kv.1)) "pdfElementId" d = d := by
      intro d
      apply lastValD_of_not_mem
      intro hmem2
      apply hrootpdf
      simp only [objKeys, List.mem_map] at hmem2 ⊢
      obtain ⟨kv, hkv, hfst⟩ := hmem2
      exact ⟨kv, (List.mem_filter.mp hkv).1, hfst⟩
    simp only [userDataProps]
    rw [lastValD_append, lastValD_append, hrootskip,
      lastValD_filter_not_contains _ _ _ (by decide)]
    simp [lastValD, jsOr]
    split
    · exact hscrub
    · rfl
  · intro documentData resultId
    refine ⟨?_, ?_, ?_⟩
    · intro h
      simp [uploadPDFModel, h]
    · by_cases h : ((documentData.get "userData").get "pdfElementId").truthy <;>
        simp [uploadPDFModel, h]
    · intro fs gs hfs hgs htr hres
      subst hfs
      simp only [uploadPDFModel, htr, Bool.false_eq_true, if_false, hres, if_true,
        uploadStoreElementId, hgs]
      simp only [JVal.get]
      rw [jgetFields_objInsert]
      simp [jgetFields_objInsert]

/-- Witness for the amended C7: a prior with `userData.pdfElementId = "E7"`
reconciles to the same id, and the upload model updates element `"E7"`
rather than creating a new one. -/
theorem sync_upload_pdfElementId_amended_witness :
    WFPrior (JVal.obj [("userData", .obj [("pdfElementId", .str "E7")])]) = true ∧
    WFDocumentLabels ⟨"Widget", none, "2020-01-01T00:00:00.000Z", none⟩ = true ∧
      ((∃ r, syncDocumentsMerge ⟨none, none, none⟩ "d1"
          ⟨"Widget", none, "2020-01-01T00:00:00.000Z", none⟩ (.error ()) (.error ())
          (.error ())
          (JVal.obj [("userData", .obj [("pdfElementId", .str "E7")])]) = some r
        ∧ (r.get "userData").get "pdfElementId"
            = (if (((JVal.obj [("userData", .obj [("pdfElementId", .str "E7")])]).get
                  "userData").get "pdfElementId").truthy
               then ((JVal.obj [("userData",
                  .obj [("pdfElementId", .str "E7")])]).get "userData").get "pdfElementId"
               else .undefined))
      ∧ (∀ documentData resultId : JVal,
          (((documentData.get "userData").get "pdfElementId").truthy = true →
            uploadPDFModel documentData resultId
              = (.update ((documentData.get "userData").get "pdfElementId"),
                 documentData))
          ∧ ((uploadPDFModel documentData resultId).1 = .create ↔
              ((documentData.get "userData").get "pdfElementId").truthy = false)
          ∧ (∀ fs gs, documentData = .obj fs →
              jsOr (jgetFields fs "userData") (.obj []) = .obj gs →
              ((documentData.get "userData").get "pdfElementId").truthy = false →
              resultId.truthy = true →
              (((uploadPDFModel documentData resultId).2).get "userData").get
                  "pdfElementId" = resultId))) :=
  ⟨by decide, by decide,
    sync_upload_pdfElementId_amended ⟨none, none, none⟩ "d1"
      ⟨"Widget", none, "2020-01-01T00:00:00.000Z", none⟩ (.error ()) (.error ())
      (.error ()) (JVal.obj [("userData", .obj [("pdfElementId", .str "E7")])])
      (by decide) (by decide) (by decide) (by decide)⟩

/-! ## C1: idempotence of reconciliation -/

/-- **C1 (code bug)**: reconciliation is not idempotent.  The records
returned by `syncDocumentsMerge` are the persisted (`JSON.stringify`-level)
values, so `r2 ≠ r1` means the two files differ byte-for-byte.  The cause:
`sync.ts` writes `onshapeUrl` and `mainWorkspaceId` at the record's top
level but omits both from the root-migration exclusion list (line 184), so
the second reconciliation migrates them into `userData` — here
`userData.onshapeUrl` appears in `r2` but not in `r1`. -/
theorem sync_not_idempotent :
    ∃ r1 r2,
      syncDocumentsMerge ⟨none, none, none⟩ "d1"
          ⟨"Widget A", some "desc", "2020-01-01T00:00:00.000Z",
            some [.obj [("name", .str "meshtastic")]]⟩
          (.ok [⟨"w1", "Main", false, "workspace"⟩]) (.error ()) (.error ())
          (JVal.obj []) = some r1
      ∧ syncDocumentsMerge ⟨none, none, none⟩ "d1"
          ⟨"Widget A", some "desc", "2020-01-01T00:00:00.000Z",
            some [.obj [("name", .str "meshtastic")]]⟩
          (.ok [⟨"w1", "Main", false, "workspace"⟩]) (.error ()) (.error ())
          r1 = some r2
      ∧ r2 ≠ r1
      ∧ (r2.get "userData").get "onshapeUrl"
          = .str "https://cad.onshape.com/documents/d1"
      ∧ (r1.get "userData").get "onshapeUrl" = .undefined
      ∧ (r2.get "userData").get "mainWorkspaceId" = .str "w1"
      ∧ (r1.get "userData").get "mainWorkspaceId" = .undefined := by
  refine ⟨_, _, rfl, rfl, by decide, by decide, by decide, by decide, by decide⟩

/-! ## C2: batch continuation -/

/-- The process-level outcome of one `syncDocuments` call (`sync.ts` lines
43-203): the whole body sits in one try/catch whose handler logs the error
and calls `process.exit(1)` (lines 199-202), so a thrown core-metadata
fetch — or any other uncaught throw, including the merge itself throwing —
terminates the entire process instead of propagating to the caller. -/
inductive ProcResult where
  | ok
  | exit (code : Nat)
  deriving DecidableEq, Repr

def syncDocumentsRun (cfg : AuthorConfig) (docId : String)
    (documentRes : Except Unit OnshapeDocument)
    (workspacesRes : Except Unit (List Workspace))
    (versionsRes : Except Unit (List RawVersion))
    (thumbnailsRes : Except Unit (List JVal)) (prior : JVal) : ProcResult :=
  match documentRes with
  | .error _ => .exit 1
  | .ok document =>
    match syncDocumentsMerge cfg docId document workspacesRes versionsRes
        thumbnailsRes prior with
    | none => .exit 1
    | some _ => .ok

/-- One candidate of a bulk sync run: its display name and the environment
its `syncDocuments` call sees (fetch outcomes and prior record). -/
structure BulkDoc where
  name : String
  id : String
  documentRes : Except Unit OnshapeDocument
  workspacesRes : Except Unit (List Workspace)
  versionsRes : Except Unit (List RawVersion)
  thumbnailsRes : Except Unit (List JVal)
  prior : JVal

/-- `bulk.ts` lines 98-133 with PDF generation disabled: the loop awaits
`syncDocuments` for each document inside a per-document try/catch
(intended to continue past failures) — but `syncDocuments` never throws:
on failure it calls `process.exit(1)`, so the catch never fires for sync
failures and the process dies mid-batch.  Returns the names attempted
(whose `syncDocuments` call started), the names logged `Completed`, and
whether the process exited before finishing.  `bulkSync` prints no
succeeded/failed counts (its closing message, line 133, is only
"Bulk processing complete!"). -/
def bulkSyncRun (cfg : AuthorConfig) :
    List BulkDoc → List String × List String × Bool
  | [] => ([], [], false)
  | d :: rest =>
    match syncDocumentsRun cfg d.id d.documentRes d.workspacesRes d.versionsRes
        d.thumbnailsRes d.prior with
    | .exit _ => ([d.name], [], true)
    | .ok =>
      let (att, comp, ex) := bulkSyncRun cfg rest
      (d.name :: att, d.name :: comp, ex)

/-- **C2 (code bug)**: with 3 candidates where the 2nd document's
core-metadata fetch throws, the batch attempts documents 1 and 2, completes
only document 1, and the process exits during document 2 — document 3 is
never attempted and no succeeded/failed summary exists, contradicting the
claimed "2 succeeded, 1 failed, 3rd attempted" summary. -/
theorem bulkSync_exits_on_metadata_failure :
    bulkSyncRun ⟨none, none, none⟩
      [⟨"Doc 1", "d1", .ok ⟨"Doc 1", none, "2020-01-01T00:00:00.000Z", none⟩,
         .error (), .error (), .error (), .obj []⟩,
       ⟨"Doc 2", "d2", .error (), .error (), .error (), .error (), .obj []⟩,
       ⟨"Doc 3", "d3", .ok ⟨"Doc 3", none, "2020-01-01T00:00:00.000Z", none⟩,
         .error (), .error (), .error (), .obj []⟩]
      = (["Doc 1", "Doc 2"], ["Doc 1"], true) := by decide

/-! ## C8: label-based selection -/

/-- One entry of the `/documents` listing as the label search reads it. -/
structure ListedDoc where
  id : String
  name : String
  documentLabels : Option (List JVal)
  deriving Repr

/-- A page of the listing: its items, plus — when a next page exists — the
`offset` and `limit` query parameters parsed from the continuation URL
(each `none` when the URL lacks it). -/
structure DocPage where
  items : List ListedDoc
  next : Option (Option Nat × Option Nat)

/-- The `getAllDocuments` loop (`onshape-client/src/index.ts` lines
233-260): starting from the page at offset 0 / limit 20, accumulate items
while pages are nonempty, following each continuation pointer's
offset/limit (absent parameters fall back to `getDocuments`' defaults
0/20).  The JavaScript `while` is unbounded; `fuel` bounds the pages any
terminating listing can produce. -/
def getAllDocumentsLoop (fetch : Nat → Nat → DocPage) :
    Nat → DocPage → List ListedDoc → List ListedDoc
  | 0, _, acc => acc
  | fuel + 1, page, acc =>
    if page.items.isEmpty then acc
    else
      match page.next with
      | none => acc ++ page.items
      | some (o, l) =>
        getAllDocumentsLoop fetch fuel (fetch (o.getD 0) (l.getD 20))
          (acc ++ page.items)

def getAllDocuments (fetch : Nat → Nat → DocPage) (fuel : Nat) :
    List ListedDoc :=
  getAllDocumentsLoop fetch fuel (fetch 0 20) []

/-- `typeof x === 'object'` for a truthy value. -/
def isObjLike : JVal → Bool
  | .obj _ => true
  | .arr _ => true
  | _ => false

/-- The client-side label test (`onshape-client` lines 274-284): the
document's embedded `documentLabels` contains a truthy object entry whose
`name` strictly equals the requested label. -/
def hasLabel (label : String) (doc : ListedDoc) : Bool :=
  match doc.documentLabels with
  | none => false
  | some ls =>
    ls.any (fun l => l.truthy && isObjLike l && strictEq (l.get "name") (.str label))

/-- `getDocumentsByLabel` (`onshape-client` lines 262-288): fetch the full
unfiltered listing, then filter client-side; the server's `label` request
parameter is never sent. -/
def getDocumentsByLabel (fetch : Nat → Nat → DocPage) (fuel : Nat)
    (label : String) : List ListedDoc :=
  (getAllDocuments fetch fuel).filter (hasLabel label)

/-- Modelled from the spec (§4.2 pagination contract, §6): a lawful
paginated listing over a fixed document list — a call with
`offset`/`limit` returns that slice, with a continuation pointer exactly
when further items remain. -/
def pagedListing (docs : List ListedDoc) (offset limit : Nat) : DocPage :=
  { items := (docs.drop offset).take limit,
    next :=
      if offset + limit < docs.length then some (some (offset + limit), some limit)
      else none }

theorem getAllDocumentsLoop_pagedListing (docs : List ListedDoc) :
    ∀ fuel offset, docs.length - offset < fuel →
      getAllDocumentsLoop (pagedListing docs) fuel
        (pagedListing docs offset 20) (docs.take offset) = docs := by
  intro fuel
  induction fuel with
  | zero =>
    intro offset h
    omega
  | succ n ih =>
    intro offset h
    by_cases hoff : docs.length ≤ offset
    · have hdrop : docs.drop offset = [] := List.drop_eq_nil_of_le hoff
      simp [getAllDocumentsLoop, pagedListing, hdrop,
        List.take_of_length_le hoff]
    · push_neg at hoff
      have hdropne : docs.drop offset ≠ [] := by
        intro hcon
        have := congrArg List.length hcon
        simp at this
        omega
      have hitems : ((docs.drop offset).take 20).isEmpty = false := by
        cases hdd : docs.drop offset with
        | nil => exact absurd hdd hdropne
        | cons a as => simp [hdd]
      have hacc : docs.take offset ++ (docs.drop offset).take 20
          = docs.take (offset + 20) := (List.take_add docs offset 20).symm
      by_cases hnext : offset + 20 < docs.length
      · simp only [getAllDocumentsLoop, pagedListing, hitems, if_pos hnext,
          Bool.false_eq_true, if_false]
        rw [hacc]
        simpa [pagedListing, Option.getD] using ih (offset + 20) (by omega)
      · simp only [getAllDocumentsLoop, pagedListing, hitems, if_neg hnext,
          Bool.false_eq_true, if_false]
        rw [hacc, List.take_of_length_le (by omega)]

/-- **C8**: for every label criterion over a lawful paginated listing, the
batch selector fetches the full unfiltered listing — following
continuation pointers until no next page remains and concatenating every
page's items, so `getAllDocuments` returns exactly `docs` — and then
selects exactly the documents whose embedded label set contains an entry
named `label`; no server-side label filtering is involved (`pagedListing`
takes no label argument). -/
theorem getDocumentsByLabel_spec (docs : List ListedDoc) (label : String) :
    getAllDocuments (pagedListing docs) (docs.length + 1) = docs
    ∧ getDocumentsByLabel (pagedListing docs) (docs.length + 1) label
        = docs.filter (hasLabel label) := by
  have hall : getAllDocuments (pagedListing docs) (docs.length + 1) = docs := by
    have h0 := getAllDocumentsLoop_pagedListing docs (docs.length + 1) 0 (by omega)
    simpa [getAllDocuments] using h0
  exact ⟨hall, by simp [getDocumentsByLabel, hall]⟩

/-! ## C9: slug derivation -/

/-- **C9**: `generateFilenameFromTitle` is the pipeline lowercase →
collapse each whitespace run to one hyphen → strip characters outside
`[a-z0-9-]` (its definition, translated from
`document-utils.ts` lines 12-14); consequently every character of the
result lies in `[a-z0-9-]`. -/
theorem generateFilenameFromTitle_charset (title : String) (c : Char)
    (hc : c ∈ (generateFilenameFromTitle title).data) : isSlugChar c = true := by
  simp only [generateFilenameFromTitle] at hc
  exact (List.mem_filter.mp hc).2

/-- Witness for C9 at a concrete title. -/
theorem generateFilenameFromTitle_charset_witness :
    'w' ∈ (generateFilenameFromTitle "My Widget 2!").data ∧ isSlugChar 'w' = true :=
  ⟨by decide, generateFilenameFromTitle_charset "My Widget 2!" 'w' (by decide)⟩

/-! ## C10: bulk-upload skip flag -/

/-- One record file `bulkUpload` iterates over, with the environment it
sees: the record fields it reads, whether the slug-named PDF file exists,
and whether the shelled-out single upload command succeeds. -/
structure BulkUploadDoc where
  title : String
  documentId : String
  labels : JVal
  userData : JVal
  pdfExists : Bool
  uploadSucceeds : Bool

inductive UploadOutcome where
  | filteredOut
  | skippedNoPdf
  | skippedFlag
  | uploaded
  | uploadFailed
  deriving DecidableEq, Repr

/-- `documentData.labels?.includes(label)` (`bulk.ts` line 269): membership
in the record's labels array (SameValueZero); a missing or non-array
`labels` yields no match. -/
def labelIncludes (labels : JVal) (label : String) : Bool :=
  match labels with
  | .arr xs => xs.any (fun x => sameValueZero x (.str label))
  | _ => false

/-- `bulk.ts` lines 263-331, the decision for one record file: a label
mismatch is passed over before any counting; a missing PDF counts as
skipped; a record whose `userData.skipPdfUpload` strictly equals `true`
counts as skipped without invoking the upload; otherwise the shelled
upload runs, a failure counting as skipped. -/
def bulkUploadStep (labelOpt : Option String) (d : BulkUploadDoc) :
    UploadOutcome :=
  if (match labelOpt with
      | some l => !labelIncludes d.labels l
      | none => false) then .filteredOut
  else if !d.pdfExists then .skippedNoPdf
  else if strictEq (d.userData.get "skipPdfUpload") (.bool true) then .skippedFlag
  else if d.uploadSucceeds then .uploaded
  else .uploadFailed

/-- The final `Uploaded` / `Skipped` counts of `bulkUpload`
(`bulk.ts` lines 259-341). -/
def bulkUploadRun (labelOpt : Option String) :
    List BulkUploadDoc → Nat × Nat
  | [] => (0, 0)
  | d :: rest =>
    let uc := bulkUploadRun labelOpt rest
    match bulkUploadStep labelOpt d with
    | .filteredOut => uc
    | .uploaded => (uc.1 + 1, uc.2)
    | _ => (uc.1, uc.2 + 1)

theorem strictEq_bool_true (x : JVal) :
    strictEq x (.bool true) = true ↔ x = .bool true := by
  cases x <;> simp [strictEq, sameValueZero]

/-- **C10**: in the bulk upload, a record that matches the label criterion
and whose PDF exists is skipped by the opt-out flag exactly when
`userData.skipPdfUpload` strictly equals `true`; such a record contributes
to the skipped count and not to the upload count (no upload is invoked),
while a record without that exact flag is never given the
`skippedFlag` outcome. -/
theorem bulkUpload_skipPdfUpload (label : String) (d : BulkUploadDoc)
    (hl : labelIncludes d.labels label = true) (hp : d.pdfExists = true) :
    (bulkUploadStep (some label) d = .skippedFlag
      ↔ d.userData.get "skipPdfUpload" = .bool true)
    ∧ (d.userData.get "skipPdfUpload" = .bool true →
        ∀ rest : List BulkUploadDoc,
          bulkUploadRun (some label) (d :: rest)
            = ((bulkUploadRun (some label) rest).1,
               (bulkUploadRun (some label) rest).2 + 1)) := by
  have hiff : bulkUploadStep (some label) d = .skippedFlag
      ↔ d.userData.get "skipPdfUpload" = .bool true := by
    unfold bulkUploadStep
    by_cases hf : strictEq (d.userData.get "skipPdfUpload") (.bool true) = true
    · simp [hl, hp, (strictEq_bool_true _).mp hf, strictEq, sameValueZero]
    · have hne : d.userData.get "skipPdfUpload" ≠ .bool true :=
        fun hh => hf ((strictEq_bool_true _).mpr hh)
      cases hs : d.uploadSucceeds <;> simp [hl, hp, hf, hs, hne]
  refine ⟨hiff, ?_⟩
  intro hflag rest
  have hst : bulkUploadStep (some label) d = .skippedFlag := hiff.mpr hflag
  simp [bulkUploadRun, hst]

/-- Witness for C10: a matching record with an existing PDF and
`skipPdfUpload: true`. -/
theorem bulkUpload_skipPdfUpload_witness :
    labelIncludes (JVal.arr [.str "meshtastic"]) "meshtastic" = true ∧
    (⟨"Widget", "d1", .arr [.str "meshtastic"],
        .obj [("skipPdfUpload", .bool true)], true, true⟩ : BulkUploadDoc).pdfExists
      = true ∧
    ((bulkUploadStep (some "meshtastic")
        ⟨"Widget", "d1", .arr [.str "meshtastic"],
          .obj [("skipPdfUpload", .bool true)], true, true⟩ = .skippedFlag
      ↔ (JVal.obj [("skipPdfUpload", .bool true)]).get "skipPdfUpload" = .bool true)
    ∧ ((JVal.obj [("skipPdfUpload", .bool true)]).get "skipPdfUpload" = .bool true →
        ∀ rest : List BulkUploadDoc,
          bulkUploadRun (some "meshtastic")
              (⟨"Widget", "d1", .arr [.str "meshtastic"],
                .obj [("skipPdfUpload", .bool true)], true, true⟩ :: rest)
            = ((bulkUploadRun (some "meshtastic") rest).1,
               (bulkUploadRun (some "meshtastic") rest).2 + 1))) :=
  ⟨by decide, by decide,
    bulkUpload_skipPdfUpload "meshtastic"
      ⟨"Widget", "d1", .arr [.str "meshtastic"],
        .obj [("skipPdfUpload", .bool true)], true, true⟩ (by decide) (by decide)⟩
